import Mathlib

/-!
Shallow embedding of the retrieval-augmented answering pipeline of
`backend/ai_ask.py` (Event_Diary repository), together with proofs of the
specification's claims about it.

Text is modelled as `List Char` where character-level slicing matters
(chunking, normalization) and as `String` elsewhere.  The `while` loop of
`chunk_text` is modelled with explicit fuel: `none` means the loop did not
terminate within the given fuel, and nontermination is the statement that
the result is `none` for every fuel.  Python exceptions are modelled with
`Except`: an `Except.error` result is an exception propagating out of the
modelled function to its caller.
-/

/-- A conversation turn, the dict `{"user": question, "bot": answer}`
appended to `conversation_history` in `ask_ollama`. -/
structure Turn where
  user : String
  bot : String
deriving DecidableEq, Repr

/-- A loaded document, the dict `{"name": filename, "content": content}`
built by `load_documents`. -/
structure Document where
  name : String
  content : String
deriving DecidableEq, Repr

/-- One iteration batch of the `while start < len(text)` loop of
`chunk_text`, phrased on the remaining suffix of the text: emitting
`text[start:start+chunk_size]` and advancing `start` by
`chunk_size - overlap` is emitting `take chunk_size` of the suffix and
recursing on `drop (chunk_size - overlap)` of it.  `fuel` bounds the number
of iterations; `none` models an infinite loop. -/
def chunkLoop (chunk_size overlap : Nat) : Nat → List Char → Option (List (List Char))
  | _, [] => some []
  | 0, _ :: _ => none
  | fuel + 1, c :: cs =>
      (chunkLoop chunk_size overlap fuel ((c :: cs).drop (chunk_size - overlap))).map
        (((c :: cs).take chunk_size) :: ·)

/-- `chunk_text(text, chunk_size, overlap)` from `ai_ask.py`.  Since the
loop advances `start` by at least 1 per iteration whenever
`overlap < chunk_size`, `text.length` iterations of fuel are enough for
every terminating run. -/
def chunk_text (text : List Char) (chunk_size overlap : Nat) : Option (List (List Char)) :=
  chunkLoop chunk_size overlap text.length text

/-- Concatenation-with-overlap-removed of a chunk list: the first chunk in
full, then every later chunk with its first `overlap` characters dropped. -/
def reconstruct (overlap : Nat) : List (List Char) → List Char
  | [] => []
  | c :: rest => c ++ (rest.map (List.drop overlap)).flatten

/-- The whitespace characters removed by Python `str.strip()`. -/
def pyIsSpace (c : Char) : Bool :=
  c == ' ' || c == '\t' || c == '\n' || c == '\r' || c == '\x0b' || c == '\x0c'

/-- Python `str.strip()` on a character list: remove leading and trailing
whitespace. -/
def stripChars (l : List Char) : List Char :=
  ((l.dropWhile pyIsSpace).reverse.dropWhile pyIsSpace).reverse

/-- Python `str.strip()` on a string. -/
def pyStrip (s : String) : String :=
  String.mk (stripChars s.toList)

/-- `content.replace("\n", " ")` from `load_documents`. -/
def replaceNewlines (l : List Char) : List Char :=
  l.map (fun c => if c == '\n' then ' ' else c)

/-- `content.replace("  ", " ")` from `load_documents`: Python `str.replace`
substitutes non-overlapping occurrences left to right, so each pair of
adjacent spaces becomes one space and scanning resumes after it. -/
def collapseDoubleSpace : List Char → List Char
  | ' ' :: ' ' :: rest => ' ' :: collapseDoubleSpace rest
  | c :: rest => c :: collapseDoubleSpace rest
  | [] => []

/-- The whole normalization applied to a file's text in `load_documents`:
`f.read().replace("\n", " ").replace("  ", " ").strip()`. -/
def normalizeContent (s : String) : String :=
  String.mk (stripChars (collapseDoubleSpace (replaceNewlines s.toList)))

/-- `filename.endswith(".txt")`, decided on the character list (the last
four characters are ".txt"). -/
def endswithTxt (s : String) : Bool :=
  s.toList.reverse.take 4 == ['t', 'x', 't', '.']

/-- `load_documents` from `ai_ask.py`.  The input models `os.listdir`
together with each file's read outcome: `some content` when `open`/`read`
succeeds, `none` when it raises.  The source has no try/except, so a `none`
for a ".txt" file makes the whole call raise (`Except.error` with that
filename); files not ending in ".txt" are ignored. -/
def load_documents : List (String × Option String) → Except String (List Document)
  | [] => .ok []
  | (filename, content?) :: rest =>
      if endswithTxt filename then
        match content? with
        | none => .error filename
        | some content =>
            (load_documents rest).map (fun docs => ⟨filename, normalizeContent content⟩ :: docs)
      else
        load_documents rest

/-- `conversation_history[-5:]` from `ask_ollama`: the most recent five
turns (all of them when fewer than five exist). -/
def recentHistory (hist : List Turn) : List Turn :=
  hist.drop (hist.length - 5)

/-- One turn of the history rendered inside `ask_ollama`'s
`history_context`: `f"Felhasználó: {msg['user']}\nAsszisztens: {msg['bot']}"`. -/
def renderTurn (t : Turn) : String :=
  "Felhasználó: " ++ t.user ++ "\nAsszisztens: " ++ t.bot

/-- `history_context` from `ask_ollama`: the rendered recent turns joined
with newlines. -/
def historyContext (hist : List Turn) : String :=
  String.intercalate "\n" ((recentHistory hist).map renderTurn)

/-- The prompt f-string assembled in `ask_ollama`: fixed instruction
template, then the retrieved passages joined with a blank line, then the
rendered recent history, then the current question. -/
def promptOf (chunks : List String) (hist : List Turn) (question : String) : String :=
  "\nTe egy magyar nyelvű szakértő asszisztens vagy, aki dokumentumok alapján válaszol.\n\n🧩 Szabályok:\n- Mindig magyarul válaszolj.\n- Csak a dokumentumrészletekre támaszkodj.\n- Ha nincs releváns információ: \"Nem található a dokumentumban.\"\n- A beszélgetés folyamatosságát tartsd fenn: vedd figyelembe a korábbi kérdéseket is.\n- Légy rövid, pontos, logikus.\n\n📄 Dokumentumrészletek:\n"
    ++ String.intercalate "\n\n" chunks
    ++ "\n\n💬 Korábbi beszélgetés:\n"
    ++ historyContext hist
    ++ "\n\n❓ Aktuális kérdés:\n"
    ++ question
    ++ "\n\n🧠 Válasz (magyarul):\n"

/-- Outcome of the `requests.post` call to the Ollama generation backend:
either a response carrying a status code and the `"response"` field of its
JSON body, or a raised exception (connection error or timeout). -/
inductive GenResult where
  | resp (status : Nat) (body : String)
  | exc (message : String)
deriving DecidableEq, Repr

/-- The fallback string `ask_ollama` returns on a non-200 response:
`"⚠️ Hiba az Ollama API hívásakor"`. -/
def apiErrorFallback : String := "⚠️ Hiba az Ollama API hívásakor"

/-- The fallback string substituted for an empty generated answer:
`"⚠️ Üres válasz érkezett."`. -/
def emptyFallback : String := "⚠️ Üres válasz érkezett."

/-- `ask_ollama` from `ai_ask.py`, parametric in the retrieval result and
the generation call.  The returned pair is the answer together with the
`conversation_history` after the call; `Except.error` models the uncaught
exception of `requests.post` propagating to the caller.  On a non-200
response the fallback is returned before the history append is reached; on
a 200 response the stripped body (or, when it is empty, `emptyFallback`)
is both returned and appended as a turn. -/
def ask_ollama (retrieved : List String) (hist : List Turn) (question : String)
    (gen : String → GenResult) : Except String (String × List Turn) :=
  let prompt := promptOf retrieved hist question
  match gen prompt with
  | .exc m => .error m
  | .resp status body =>
      if status ≠ 200 then
        .ok (apiErrorFallback, hist)
      else
        let answer := if pyStrip body = "" then emptyFallback else pyStrip body
        .ok (answer, hist ++ [⟨question, answer⟩])

/-- One record inserted into the Chroma collection by `ensure_index`:
`ids=[f"{doc['name']}_{i}"]`, `documents=[f"{doc['name']}: {chunk}"]`,
`metadatas=[{"source": doc['name']}]`. -/
structure IndexEntry where
  id : String
  document : String
  source : String
deriving DecidableEq, Repr

/-- The `for i, chunk in enumerate(chunks)` loop of `ensure_index`,
building the entry inserted for chunk `i` of a document. -/
def chunkEntriesAux (name : String) : Nat → List (List Char) → List IndexEntry
  | _, [] => []
  | i, c :: cs =>
      ⟨name ++ "_" ++ toString i, name ++ ": " ++ String.mk c, name⟩
        :: chunkEntriesAux name (i + 1) cs

/-- The entries `ensure_index` inserts for one document: its content
chunked with the default `chunk_size=500, overlap=50`, each chunk indexed
and prefixed with the document name.  `none` propagates a diverging
`chunk_text` call. -/
def docEntries (d : Document) : Option (List IndexEntry) :=
  (chunk_text d.content.toList 500 50).map (chunkEntriesAux d.name 0)

/-- All entries `ensure_index` inserts for a document list, in insertion
order. -/
def ensure_index_entries : List Document → Option (List IndexEntry)
  | [] => some []
  | d :: rest =>
      match docEntries d, ensure_index_entries rest with
      | some es, some rest' => some (es ++ rest')
      | _, _ => none

/-- The process-wide indexing state: the `_index_started` flag and how many
indexing runs (`threading.Thread(target=ensure_index).start()`) have been
launched. -/
structure IdxState where
  started : Bool
  launches : Nat
deriving DecidableEq, Repr

/-- `ensure_index_background` from `ai_ask.py` run atomically (no
interleaving between the flag read and the flag write): if the flag is
unset, set it and launch one indexing run. -/
def ensure_index_background (s : IdxState) : IdxState :=
  if s.started then s else { started := true, launches := s.launches + 1 }

/-- One concurrent caller of `ensure_index_background`, split at CPython's
interleaving points: at `pc = 0` it evaluates `not _index_started` (reading
the global flag into `observed`), at `pc = 1` it conditionally performs
`_index_started = True` and launches the thread, at `pc = 2` it is done. -/
structure CallerState where
  pc : Nat
  observed : Bool
deriving DecidableEq, Repr

/-- One atomic step of a caller of `ensure_index_background` against the
shared state. -/
def callerStep (g : IdxState) (t : CallerState) : IdxState × CallerState :=
  match t.pc with
  | 0 => (g, { pc := 1, observed := g.started })
  | 1 =>
      if t.observed then (g, { t with pc := 2 })
      else ({ started := true, launches := g.launches + 1 }, { t with pc := 2 })
  | _ => (g, t)

/-- Run two concurrent callers of `ensure_index_background` under a
schedule: `true` steps the first caller, `false` the second. -/
def runSchedule : List Bool → IdxState × CallerState × CallerState → IdxState × CallerState × CallerState
  | [], s => s
  | b :: rest, (g, t1, t2) =>
      if b then
        let (g', t1') := callerStep g t1
        runSchedule rest (g', t1', t2)
      else
        let (g', t2') := callerStep g t2
        runSchedule rest (g', t1, t2')

/-- The module-initialization value of `_index_started` (False) with no
run launched yet. -/
def initIdx : IdxState := ⟨false, 0⟩

/-- A caller that has not yet executed any part of
`ensure_index_background`. -/
def initCaller : CallerState := ⟨0, false⟩

/-! ## Theorems -/

/-- When the offset never advances (`overlap ≥ chunk_size`), the loop never
consumes the text, so it runs out of any amount of fuel on nonempty input. -/
theorem chunkLoop_stuck (chunk_size overlap : Nat) (hov : chunk_size ≤ overlap) :
    ∀ fuel (text : List Char), text ≠ [] →
      chunkLoop chunk_size overlap fuel text = none := by
  intro fuel
  induction fuel with
  | zero =>
      intro text hne
      cases text with
      | nil => exact absurd rfl hne
      | cons c cs => rfl
  | succ f ih =>
      intro text hne
      cases text with
      | nil => exact absurd rfl hne
      | cons c cs =>
          have hstep : chunk_size - overlap = 0 := Nat.sub_eq_zero_of_le hov
          simp only [chunkLoop, hstep, List.drop_zero]
          rw [ih (c :: cs) (by simp)]
          rfl

/-- With `overlap < chunk_size` the loop consumes at least one character
per iteration, so `text.length` fuel always suffices; the emitted chunks
are the size-bounded sliding windows of the text and reassemble it. -/
theorem chunkLoop_spec (chunk_size overlap : Nat) (hso : overlap < chunk_size) :
    ∀ fuel (text : List Char), text.length ≤ fuel →
      ∃ cs, chunkLoop chunk_size overlap fuel text = some cs ∧
        (cs = [] ↔ text = []) ∧
        (∀ c ∈ cs, c.length ≤ chunk_size) ∧
        ((cs.map (List.drop overlap)).flatten = text.drop overlap) ∧
        reconstruct overlap cs = text ∧
        (∀ i (h : i < cs.length), cs.get ⟨i, h⟩ =
          (text.drop (i * (chunk_size - overlap))).take chunk_size) := by
  intro fuel
  induction fuel with
  | zero =>
      intro text hlen
      have htext : text = [] := List.eq_nil_of_length_eq_zero (Nat.le_zero.mp hlen)
      subst htext
      exact ⟨[], rfl, by simp, by simp, by simp, rfl, by simp⟩
  | succ f ih =>
      intro text hlen
      cases text with
      | nil => exact ⟨[], rfl, by simp, by simp, by simp, rfl, by simp⟩
      | cons c cs0 =>
          have hstep : 0 < chunk_size - overlap := Nat.sub_pos_of_lt hso
          have hlen' : ((c :: cs0).drop (chunk_size - overlap)).length ≤ f := by
            rw [List.length_drop]
            simp only [List.length_cons] at hlen ⊢
            omega
          obtain ⟨cs', hloop, hiff, hsz, hflat, hrec, hwin⟩ :=
            ih ((c :: cs0).drop (chunk_size - overlap)) hlen'
          refine ⟨(c :: cs0).take chunk_size :: cs', ?_, ?_, ?_, ?_, ?_, ?_⟩
          · simp [chunkLoop, hloop]
          · simp
          · intro d hd
            rcases List.mem_cons.mp hd with h | h
            · subst h
              simp
            · exact hsz d h
          · have h1 : ((c :: cs0).take chunk_size).drop overlap
                = ((c :: cs0).drop overlap).take (chunk_size - overlap) := by
              rw [List.drop_take]
            have h2 : (((c :: cs0).drop (chunk_size - overlap)).drop overlap)
                = ((c :: cs0).drop overlap).drop (chunk_size - overlap) := by
              rw [List.drop_drop, List.drop_drop, Nat.add_comm]
            simp only [List.map_cons, List.flatten_cons, hflat, h1, h2]
            exact List.take_append_drop _ _
          · have hco : chunk_size - overlap + overlap = chunk_size :=
              Nat.sub_add_cancel (Nat.le_of_lt hso)
            have h2 : (((c :: cs0).drop (chunk_size - overlap)).drop overlap)
                = (c :: cs0).drop chunk_size := by
              rw [List.drop_drop, hco]
            simp only [reconstruct, hflat, h2]
            exact List.take_append_drop _ _
          · intro i h
            cases i with
            | zero => simp
            | succ j =>
                have hj : j < cs'.length := by
                  simpa using Nat.lt_of_succ_lt_succ h
                have := hwin j hj
                simp only [List.get_cons_succ]
                rw [List.get_eq_getElem] at this ⊢
                rw [this, List.drop_drop, Nat.succ_mul, Nat.add_comm]

/-- C5: for `overlap < chunk_size` and nonempty text, `chunk_text`
terminates (returns `some`), produces at least one chunk, no chunk exceeds
`chunk_size` characters, chunk `i` is the window of the text starting at
offset `i * (chunk_size - overlap)` (contiguous, order-preserving,
overlapping windows), and concatenation-with-overlap-removed reconstructs
the original text. -/
theorem chunk_text_correct (chunk_size overlap : Nat) (text : List Char)
    (hso : overlap < chunk_size) (hne : text ≠ []) :
    ∃ cs, chunk_text text chunk_size overlap = some cs ∧ cs ≠ [] ∧
      (∀ c ∈ cs, c.length ≤ chunk_size) ∧
      reconstruct overlap cs = text ∧
      (∀ i (h : i < cs.length), cs.get ⟨i, h⟩ =
        (text.drop (i * (chunk_size - overlap))).take chunk_size) := by
  obtain ⟨cs, h1, h2, h3, _, h5, h6⟩ :=
    chunkLoop_spec chunk_size overlap hso text.length text (Nat.le_refl _)
  exact ⟨cs, h1, fun hcs => hne (h2.mp hcs), h3, h5, h6⟩

/-- Concrete instance of the C5 theorem: `chunk_text "abcde" 3 1` yields
the windows "abc", "cde", "e" and reassembles to "abcde". -/
theorem chunk_text_correct_witness :
    (1 : Nat) < 3 ∧ (['a', 'b', 'c', 'd', 'e'] : List Char) ≠ [] ∧
    ∃ cs, chunk_text ['a', 'b', 'c', 'd', 'e'] 3 1 = some cs ∧ cs ≠ [] ∧
      (∀ c ∈ cs, c.length ≤ 3) ∧
      reconstruct 1 cs = ['a', 'b', 'c', 'd', 'e'] ∧
      (∀ i (h : i < cs.length), cs.get ⟨i, h⟩ =
        ((['a', 'b', 'c', 'd', 'e'] : List Char).drop (i * (3 - 1))).take 3) :=
  ⟨by decide, by decide, chunk_text_correct 3 1 _ (by decide) (by decide)⟩

/-- C2: `chunk_text` does not guard the precondition `overlap < size`: at
`chunk_size = 10, overlap = 10` on the nonempty text "ab" the loop's offset
never advances, and the call diverges (exhausts every fuel bound) instead of
being rejected or returning. -/
theorem chunk_text_overlap_eq_size_diverges :
    ∀ fuel, chunkLoop 10 10 fuel ['a', 'b'] = none := by
  intro fuel
  exact chunkLoop_stuck 10 10 (Nat.le_refl 10) fuel ['a', 'b'] (by simp)

/-- C10: on the empty input text `chunk_text` returns zero chunks (not an
error and not divergence), for every `chunk_size` and `overlap`, including
misconfigured ones. -/
theorem chunk_text_empty (chunk_size overlap : Nat) :
    chunk_text [] chunk_size overlap = some [] := rfl

/-- C7 (amended): `load_documents` has no per-file recovery: if any ".txt"
file's read fails, the exception propagates and no documents at all are
returned; only when every ".txt" file is readable does it return one
document per ".txt" file. -/
theorem load_documents_abort_behavior (files : List (String × Option String)) :
    ((∃ f ∈ files, endswithTxt f.1 = true ∧ f.2 = none) →
      ∃ e, load_documents files = Except.error e) ∧
    ((∀ f ∈ files, endswithTxt f.1 = true → f.2 ≠ none) →
      ∃ docs, load_documents files = Except.ok docs ∧
        docs.length = (files.filter (fun f => endswithTxt f.1)).length) := by
  induction files with
  | nil =>
      constructor
      · rintro ⟨f, hf, _⟩
        exact absurd hf (List.not_mem_nil f)
      · intro _
        exact ⟨[], rfl, rfl⟩
  | cons p rest ih =>
      obtain ⟨name, ct⟩ := p
      by_cases htxt : endswithTxt name = true
      · cases ct with
        | none =>
            constructor
            · intro _
              exact ⟨name, by simp [load_documents, htxt]⟩
            · intro hall
              have := hall (name, none) (List.mem_cons_self _ _) htxt
              exact absurd rfl this
        | some content =>
            constructor
            · rintro ⟨f, hf, hftxt, hfnone⟩
              rcases List.mem_cons.mp hf with h | h
              · rw [h] at hfnone
                simp at hfnone
              · obtain ⟨e, he⟩ := ih.1 ⟨f, h, hftxt, hfnone⟩
                exact ⟨e, by simp [load_documents, htxt, he, Except.map]⟩
            · intro hall
              obtain ⟨docs, hd, hlen⟩ := ih.2 (fun f hf => hall f (List.mem_cons_of_mem _ hf))
              refine ⟨⟨name, normalizeContent content⟩ :: docs, ?_, ?_⟩
              · simp [load_documents, htxt, hd, Except.map]
              · simp [List.filter_cons, htxt, hlen]
      · constructor
        · rintro ⟨f, hf, hftxt, hfnone⟩
          rcases List.mem_cons.mp hf with h | h
          · rw [h] at hftxt
            exact absurd hftxt htxt
          · obtain ⟨e, he⟩ := ih.1 ⟨f, h, hftxt, hfnone⟩
            exact ⟨e, by simp [load_documents, htxt, he]⟩
        · intro hall
          obtain ⟨docs, hd, hlen⟩ := ih.2 (fun f hf => hall f (List.mem_cons_of_mem _ hf))
          refine ⟨docs, by simp [load_documents, htxt, hd], ?_⟩
          simp [List.filter_cons, htxt, hlen]

/-- C7, counterexample to the claim as stated: with "b.txt" unreadable
between two readable files, `load_documents` raises instead of returning
the documents for "a.txt" and "c.txt". -/
theorem load_documents_abort_counterexample :
    load_documents [("a.txt", some "alpha"), ("b.txt", none), ("c.txt", some "gamma")]
      = Except.error "b.txt" := rfl

/-- Concrete instance of the amended C7 theorem: one unreadable ".txt"
file makes the whole call fail, and an unreadable non-".txt" file is
ignored while the readable ".txt" files are all returned. -/
theorem load_documents_abort_behavior_witness :
    (∃ e, load_documents [("a.txt", some "hi"), ("b.txt", none)] = Except.error e) ∧
    (∃ docs, load_documents [("a.txt", some "hi"), ("b.md", none)] = Except.ok docs ∧
      docs.length = ([("a.txt", some "hi"), ("b.md", none)].filter
        (fun f => endswithTxt f.1)).length) :=
  ⟨(load_documents_abort_behavior _).1 ⟨("b.txt", none), by decide, by decide, rfl⟩,
   (load_documents_abort_behavior _).2 (by decide)⟩

/-- C6: `conversation_history[-5:]` is a suffix of the history (so the
turns it returns are in chronological order and are the most recent ones),
it has `min 5 length` elements (all turns when fewer than five exist), and
after seven appended turns it is exactly the last five. -/
theorem recent_history_spec (hist : List Turn) :
    (∃ pre, hist = pre ++ recentHistory hist) ∧
    (recentHistory hist).length = min 5 hist.length ∧
    (hist.length = 7 → recentHistory hist = hist.drop 2) := by
  refine ⟨⟨hist.take (hist.length - 5), (List.take_append_drop _ _).symm⟩, ?_, ?_⟩
  · rw [recentHistory, List.length_drop]
    omega
  · intro h7
    rw [recentHistory, h7]

/-- Concrete instance of the C6 theorem: after seven appended turns,
`recent(5)` is exactly the last five in order. -/
theorem recent_history_spec_witness :
    ([⟨"q1", "a1"⟩, ⟨"q2", "a2"⟩, ⟨"q3", "a3"⟩, ⟨"q4", "a4"⟩, ⟨"q5", "a5"⟩,
      ⟨"q6", "a6"⟩, ⟨"q7", "a7"⟩] : List Turn).length = 7 ∧
    recentHistory [⟨"q1", "a1"⟩, ⟨"q2", "a2"⟩, ⟨"q3", "a3"⟩, ⟨"q4", "a4"⟩,
      ⟨"q5", "a5"⟩, ⟨"q6", "a6"⟩, ⟨"q7", "a7"⟩]
      = ([⟨"q1", "a1"⟩, ⟨"q2", "a2"⟩, ⟨"q3", "a3"⟩, ⟨"q4", "a4"⟩, ⟨"q5", "a5"⟩,
          ⟨"q6", "a6"⟩, ⟨"q7", "a7"⟩] : List Turn).drop 2 :=
  ⟨by decide, (recent_history_spec _).2.2 (by decide)⟩

/-- C1 (amended): only a non-2xx response is converted into the fixed
user-facing fallback message; a connection error or timeout raised by
`requests.post` is not caught and propagates out of `ask_ollama` to its
caller. -/
theorem ask_ollama_generation_failure (retrieved : List String) (hist : List Turn)
    (question body : String) (status : Nat) :
    (status ≠ 200 →
      ask_ollama retrieved hist question (fun _ => GenResult.resp status body)
        = Except.ok (apiErrorFallback, hist)) ∧
    (∀ m, ask_ollama retrieved hist question (fun _ => GenResult.exc m)
        = Except.error m) := by
  constructor
  · intro h
    simp [ask_ollama, h]
  · intro m
    rfl

/-- C1, counterexample to the claim as stated: on a Generation Client
timeout, `ask_ollama` does not return the fallback message but lets the
exception reach its caller. -/
theorem ask_ollama_timeout_raises :
    ask_ollama [] [] "Mikor lesz az esemény?" (fun _ => GenResult.exc "ReadTimeout")
      = Except.error "ReadTimeout" := rfl

/-- Concrete instance of the amended C1 theorem: a 500 response yields the
fixed fallback message without raising. -/
theorem ask_ollama_generation_failure_witness :
    (500 : Nat) ≠ 200 ∧
    ask_ollama [] [] "Mikor?" (fun _ => GenResult.resp 500 "hiba")
      = Except.ok (apiErrorFallback, []) :=
  ⟨by decide, (ask_ollama_generation_failure [] [] "Mikor?" "hiba" 500).1 (by decide)⟩

/-- C3 (amended): on a non-2xx response `ask_ollama` returns the fallback
but leaves the conversation history unchanged (the append is skipped); the
exchange is appended only on a 200 response, with the stripped answer or,
when it is empty, the empty-answer fallback. -/
theorem ask_ollama_history_append (retrieved : List String) (hist : List Turn)
    (question : String) :
    (∀ status body, status ≠ 200 →
      (ask_ollama retrieved hist question (fun _ => GenResult.resp status body)).map Prod.snd
        = Except.ok hist) ∧
    (∀ body, pyStrip body = "" →
      ask_ollama retrieved hist question (fun _ => GenResult.resp 200 body)
        = Except.ok (emptyFallback, hist ++ [⟨question, emptyFallback⟩])) ∧
    (∀ body, pyStrip body ≠ "" →
      ask_ollama retrieved hist question (fun _ => GenResult.resp 200 body)
        = Except.ok (pyStrip body, hist ++ [⟨question, pyStrip body⟩])) := by
  refine ⟨?_, ?_, ?_⟩
  · intro status body h
    simp [ask_ollama, h, Except.map]
  · intro body h
    simp [ask_ollama, h]
  · intro body h
    simp [ask_ollama, h]

/-- C3, counterexample to the claim as stated: a Generation Client that
times out makes `ask_ollama` raise (no fallback answer is returned), and a
failing 503 response returns the fallback with the history still empty —
no turn carrying the fallback is appended in either case. -/
theorem ask_ollama_no_turn_on_failure :
    ask_ollama [] [] "Hol lesz?" (fun _ => GenResult.exc "ConnectionError")
      = Except.error "ConnectionError" ∧
    ask_ollama [] [] "Hol lesz?" (fun _ => GenResult.resp 503 "x")
      = Except.ok (apiErrorFallback, []) :=
  ⟨rfl, rfl⟩

/-- Concrete instance of the amended C3 theorem: a whitespace-only
generated answer is replaced by the empty-answer fallback and that turn is
appended. -/
theorem ask_ollama_history_append_witness :
    pyStrip "  " = "" ∧
    ask_ollama [] [] "Ki?" (fun _ => GenResult.resp 200 "  ")
      = Except.ok (emptyFallback, [⟨"Ki?", emptyFallback⟩]) :=
  ⟨rfl, (ask_ollama_history_append [] [] "Ki?").2.1 "  " rfl⟩

/-- C8: the prompt is the fixed instruction template with, in order, the
retrieved passages joined by a blank line, the rendered recent history,
and the current question; and with an empty retrieval result `ask_ollama`
still consults the generation call, on exactly the prompt built from empty
context (its outcome depends on the generation function only through its
value at that prompt). -/
theorem prompt_assembly (chunks : List String) (hist : List Turn) (question : String) :
    (∃ s1 s2 s3 s4, promptOf chunks hist question =
      s1 ++ String.intercalate "\n\n" chunks ++ s2 ++ historyContext hist
        ++ s3 ++ question ++ s4) ∧
    (∀ gen gen' : String → GenResult,
      gen (promptOf [] hist question) = gen' (promptOf [] hist question) →
        ask_ollama [] hist question gen = ask_ollama [] hist question gen') := by
  constructor
  · exact ⟨_, _, _, _, rfl⟩
  · intro gen gen' h
    simp only [ask_ollama]
    rw [h]

/-- Concrete instance of the C8 theorem: two generation functions agreeing
on the empty-context prompt (one of them failing everywhere else) give the
same `ask_ollama` outcome. -/
theorem prompt_assembly_witness :
    ((fun _ : String => GenResult.resp 200 "Válasz") (promptOf [] [] "Ki jön?")
      = (fun s => if s = promptOf [] [] "Ki jön?" then GenResult.resp 200 "Válasz"
          else GenResult.exc "leállt") (promptOf [] [] "Ki jön?")) ∧
    ask_ollama [] [] "Ki jön?" (fun _ => GenResult.resp 200 "Válasz")
      = ask_ollama [] [] "Ki jön?"
          (fun s => if s = promptOf [] [] "Ki jön?" then GenResult.resp 200 "Válasz"
            else GenResult.exc "leállt") :=
  ⟨by simp, (prompt_assembly [] [] "Ki jön?").2 _ _ (by simp)⟩

/-- Every entry built by the `enumerate(chunks)` loop stores as its text a
chunk of the list prefixed with the document name and ": ". -/
theorem chunkEntriesAux_document (name : String) (cs : List (List Char)) :
    ∀ (i : Nat) (e : IndexEntry), e ∈ chunkEntriesAux name i cs →
      ∃ c ∈ cs, e.document = name ++ ": " ++ String.mk c := by
  induction cs with
  | nil =>
      intro i e he
      exact absurd he (List.not_mem_nil e)
  | cons hd tl ih =>
      intro i e he
      rcases List.mem_cons.mp he with h | h
      · exact ⟨hd, List.mem_cons_self _ _, by rw [h]⟩
      · obtain ⟨c, hc, hdoc⟩ := ih (i + 1) e h
        exact ⟨c, List.mem_cons_of_mem _ hc, hdoc⟩

/-- C9: every record `ensure_index` inserts stores, as the indexed text,
not the chunk alone but the chunk prefixed with its source document's name
and ": ", so each retrieved passage carries its document name inside the
text itself. -/
theorem index_text_prefixed (docs : List Document) (entries : List IndexEntry)
    (hixd : ensure_index_entries docs = some entries) :
    ∀ e ∈ entries, ∃ d, d ∈ docs ∧
      ∃ cs, chunk_text d.content.toList 500 50 = some cs ∧
        ∃ c ∈ cs, e.document = d.name ++ ": " ++ String.mk c := by
  induction docs generalizing entries with
  | nil =>
      intro e he
      simp only [ensure_index_entries, Option.some.injEq] at hixd
      rw [← hixd] at he
      exact absurd he (List.not_mem_nil e)
  | cons d rest ih =>
      intro e he
      cases hd : docEntries d with
      | none =>
          rw [ensure_index_entries, hd] at hixd
          exact absurd hixd (by simp)
      | some es =>
          cases hr : ensure_index_entries rest with
          | none =>
              rw [ensure_index_entries, hd, hr] at hixd
              exact absurd hixd (by simp)
          | some rest' =>
              rw [ensure_index_entries, hd, hr] at hixd
              simp only [Option.some.injEq] at hixd
              rw [← hixd] at he
              rcases List.mem_append.mp he with h | h
              · obtain ⟨cs, hcs, hmap⟩ := Option.map_eq_some'.mp hd
                rw [← hmap] at h
                obtain ⟨c, hc, hdoc⟩ := chunkEntriesAux_document d.name cs 0 e h
                exact ⟨d, List.mem_cons_self _ _, cs, hcs, c, hc, hdoc⟩
              · obtain ⟨d', hd', rest_ex⟩ := ih rest' hr e h
                exact ⟨d', List.mem_cons_of_mem _ hd', rest_ex⟩

/-- Concrete instance of the C9 theorem: the single-chunk document
"town.txt" is stored with the text "town.txt: abc". -/
theorem index_text_prefixed_witness :
    ensure_index_entries [⟨"town.txt", "abc"⟩]
      = some [⟨"town.txt_0", "town.txt: abc", "town.txt"⟩] ∧
    ∃ d, d ∈ [Document.mk "town.txt" "abc"] ∧
      ∃ cs, chunk_text d.content.toList 500 50 = some cs ∧
        ∃ c ∈ cs, IndexEntry.document ⟨"town.txt_0", "town.txt: abc", "town.txt"⟩
          = d.name ++ ": " ++ String.mk c :=
  ⟨by decide,
   index_text_prefixed [⟨"town.txt", "abc"⟩] [⟨"town.txt_0", "town.txt: abc", "town.txt"⟩]
     (by decide) _ (by decide)⟩

/-- Iterating the atomically-run `ensure_index_background` from the
initial state sets the flag once and never launches a second run. -/
theorem ensure_index_background_iterate (n : Nat) :
    ensure_index_background^[n] initIdx = if n = 0 then initIdx else ⟨true, 1⟩ := by
  induction n with
  | zero => rfl
  | succ m ih =>
      rw [Function.iterate_succ_apply', ih]
      cases m with
      | zero => rfl
      | succ k => rfl

/-- C4 (amended): the start guard of `ensure_index_background` is a plain
flag read followed by a write.  Callers that run the body without
interleaving launch exactly one indexing run no matter how often they
trigger it, but two concurrent callers interleaved between the read and the
write both observe the unset flag and both launch, giving two runs. -/
theorem index_start_plain_flag :
    (∀ n : Nat, (ensure_index_background^[n] initIdx).launches = min n 1) ∧
    (∃ sched : List Bool,
      (runSchedule sched (initIdx, initCaller, initCaller)).1.launches = 2) := by
  constructor
  · intro n
    rw [ensure_index_background_iterate n]
    cases n with
    | zero => rfl
    | succ m => simp [initIdx]
  · exact ⟨[true, false, true, false], by decide⟩

/-- C4, counterexample to the claim as stated: under the schedule where
both callers read `_index_started` before either writes it, two indexing
runs are launched, not one. -/
theorem index_start_race :
    (runSchedule [true, false, true, false] (initIdx, initCaller, initCaller)).1.launches
      = 2 := by decide
